import Mathlib

/-!
Shallow embedding of `src/NumberFormatter.py` (a locale-aware number
formatter exposed through a small HTTP endpoint) together with proofs
about its formatting engine.

Modelling conventions:
* Python `float` values are modelled by `PyFloat`: a finite rational
  (`ℚ`, a superset of the dyadic rationals that doubles are), positive
  and negative infinity, and NaN.  Python's `-0.0` compares `< 0` as
  false and has absolute value `0.0`, so it coincides with the model's
  `.finite 0` throughout the plain and currency renderers (which take
  the sign from the comparison and format only the absolute value).
* Python's fixed-point and scientific string formatting round the
  (binary) value correctly, resolving exact decimal ties to even; this
  is modelled by `rhe` (round-half-to-even) on `ℚ`.
* Functions that can raise `ValueError` return `Except String String`,
  carrying the CPython error message.
* `str.lower` is modelled for ASCII data by `pyLower`.
-/

namespace NumberFormatter

/-- A locale profile: one value of the `LOCALE_CONFIG` dictionary. -/
structure LocaleCfg where
  decimal_sep : String
  thousands_sep : String
  currency_symbol : String
  currency_symbol_position : String
  currency_symbol_space : Bool
deriving DecidableEq

/-- The `"US"` entry of `LOCALE_CONFIG`. -/
def usCfg : LocaleCfg :=
  { decimal_sep := ".", thousands_sep := ",", currency_symbol := "$",
    currency_symbol_position := "before", currency_symbol_space := false }

/-- The `"EU"` entry of `LOCALE_CONFIG`. -/
def euCfg : LocaleCfg :=
  { decimal_sep := ",", thousands_sep := ".", currency_symbol := "€",
    currency_symbol_position := "after", currency_symbol_space := true }

/-- The `"UK"` entry of `LOCALE_CONFIG`. -/
def ukCfg : LocaleCfg :=
  { decimal_sep := ".", thousands_sep := ",", currency_symbol := "£",
    currency_symbol_position := "before", currency_symbol_space := false }

/-- The locale registry dictionary `LOCALE_CONFIG` (insertion order kept). -/
def LOCALE_CONFIG : List (String × LocaleCfg) :=
  [("US", usCfg), ("EU", euCfg), ("UK", ukCfg)]

/-- `LOCALE_CONFIG.get(locale)`: case-sensitive exact key lookup. -/
def localeLookup (locale : String) : Option LocaleCfg :=
  (LOCALE_CONFIG.find? (fun p => p.1 = locale)).map Prod.snd

/-- Python `float` values: finite (as an exact rational), ±infinity, NaN. -/
inductive PyFloat where
  | finite (q : ℚ)
  | inf
  | ninf
  | nan
deriving DecidableEq

/-- Models the Python comparison `value < 0` on floats. -/
def PyFloat.isNeg : PyFloat → Bool
  | .finite q => decide (q < 0)
  | .ninf => true
  | _ => false

/-- Models Python `abs(value)` on floats. -/
def PyFloat.abs : PyFloat → PyFloat
  | .finite q => .finite |q|
  | .inf => .inf
  | .ninf => .inf
  | .nan => .nan

/-- Round half to even: the rounding CPython's float-to-decimal
formatting applies to the exact value of the binary float. -/
def rhe (q : ℚ) : ℤ :=
  let f := ⌊q⌋
  let r := q - f
  if r < 1/2 then f
  else if 1/2 < r then f + 1
  else if 2 ∣ f then f else f + 1

/-- The character of a single decimal digit `d < 10`. -/
def digitChar (d : ℕ) : Char := Char.ofNat (48 + d)

/-- Little-endian decimal digits of `n`, with explicit structural fuel
(`fuel ≥ n` gives the true digit list). -/
def natDigitsRev : ℕ → ℕ → List ℕ
  | 0, _ => []
  | _ + 1, 0 => []
  | n + 1, fuel + 1 => (n + 1) % 10 :: natDigitsRev ((n + 1) / 10) fuel

/-- The decimal digit characters of `n`, as Python `str(n)` renders a
nonnegative integer. -/
def natStr (n : ℕ) : List Char :=
  if n = 0 then ['0'] else ((natDigitsRev n n).map digitChar).reverse

/-- The fractional digit block: `n < 10^d` rendered with leading zeros
to exactly `d` characters. -/
def fracStr (d n : ℕ) : List Char :=
  List.replicate (d - (natStr n).length) '0' ++ natStr n

/-- The character data of `"{:.df}".format(x)` once the rounded scaled
integer `n = rhe (x * 10^d) ≥ 0` is known. -/
def renderFixed (n d : ℕ) : List Char :=
  if d = 0 then natStr n
  else natStr (n / 10 ^ d) ++ '.' :: fracStr d (n % 10 ^ d)

/-- Models `"{:.df}".format(q)` for a nonnegative rational `q` (the
program only formats `abs(value)` this way). -/
def pyFixedFormat (q : ℚ) (d : ℕ) : String :=
  String.mk (renderFixed (rhe (q * 10 ^ d)).toNat d)

/-- Models `"{:.df}".format(value)` on the full float domain as the
program uses it (only ever on nonnegative arguments). -/
def pyFixedFormatF : PyFloat → ℕ → String
  | .finite q, d => pyFixedFormat q d
  | .inf, _ => "inf"
  | .ninf, _ => "-inf"
  | .nan, _ => "nan"

/-- Decimal-digit count of `⌊q⌋₊` minus one, via structural fuel. -/
def natLog10 : ℕ → ℕ → ℕ
  | _, 0 => 0
  | 0, _ => 0
  | fuel + 1, n + 1 => if n + 1 < 10 then 0 else natLog10 fuel ((n + 1) / 10) + 1

/-- Least `k ≥ 1` with `q * 10^k ≥ 1`, for `0 < q < 1` (fuel-driven). -/
def smallExp : ℕ → ℚ → ℕ
  | 0, _ => 1
  | fuel + 1, q => if 1 ≤ q * 10 then 1 else smallExp fuel (q * 10) + 1

/-- The power-of-ten exponent CPython's scientific formatting assigns to
a positive value `q`: the `e` with `10^e ≤ q < 10^(e+1)`. -/
def pySciExp (q : ℚ) : ℤ :=
  if 1 ≤ q then (natLog10 ⌊q⌋₊ ⌊q⌋₊ : ℤ) else -(smallExp q.den q : ℤ)

/-- Rounded mantissa digits and exponent of `q > 0` at `digits`
fractional mantissa digits, with the `9.99… → 10.0…` carry applied. -/
def pySciParts (q : ℚ) (digits : ℕ) : ℕ × ℤ :=
  let e := pySciExp q
  let m := rhe (q / (10 : ℚ) ^ e * 10 ^ digits)
  if m = 10 ^ (digits + 1) then (10 ^ digits, e + 1) else (m.toNat, e)

/-- Renders the mantissa digit block `m` (which has `digits + 1` decimal
digits) as `d.ddd…`. -/
def sciMantissa (m : ℕ) (digits : ℕ) : List Char :=
  match natStr m with
  | [] => []
  | c :: rest => if digits = 0 then [c] else c :: '.' :: rest

/-- The mantissa of zero, `0.000…`. -/
def sciMantissaZero (digits : ℕ) : List Char :=
  if digits = 0 then ['0'] else '0' :: '.' :: List.replicate digits '0'

/-- The exponent field: sign always shown, zero-padded to two digits. -/
def expStr (e : ℤ) : String :=
  let ds := natStr e.natAbs
  let ds := if ds.length < 2 then '0' :: ds else ds
  String.mk ((if e < 0 then '-' else '+') :: ds)

/-- Models `"{:.de}".format(value)`: CPython scientific notation. -/
def pySciFormat (v : PyFloat) (digits : ℕ) : String :=
  match v with
  | .inf => "inf"
  | .ninf => "-inf"
  | .nan => "nan"
  | .finite q =>
    let sign := if q < 0 then "-" else ""
    let a := |q|
    if a = 0 then sign ++ String.mk (sciMantissaZero digits) ++ "e+00"
    else
      let p := pySciParts a digits
      sign ++ String.mk (sciMantissa p.1 digits) ++ "e" ++ expStr p.2

/-- Models `str.lower` for ASCII strings. -/
def pyLower (s : String) : String := String.mk (s.data.map Char.toLower)

/-- The pieces of a list split at the first occurrence of `c` (the two
values Python's `a, b = s.split(c)` unpacks when `c` occurs once). -/
def splitOnce (c : Char) : List Char → List Char × List Char
  | [] => ([], [])
  | a :: rest =>
    if a = c then ([], rest)
    else
      let p := splitOnce c rest
      (a :: p.1, p.2)

/-- Models Python `s.split(c)` for a single-character separator. -/
def splitOnChar (c : Char) : List Char → List (List Char)
  | [] => [[]]
  | a :: rest =>
    let r := splitOnChar c rest
    if a = c then [] :: r
    else
      match r with
      | h :: t => (a :: h) :: t
      | [] => [[a]]

/-- Models Python `s.replace(old, new, 1)` for a single-character `old`. -/
def replaceFirst : List Char → Char → List Char → List Char
  | [], _, _ => []
  | a :: rest, old, new =>
    if a = old then new ++ rest else a :: replaceFirst rest old new

/-- Models Python `sep.join(parts)`. -/
def joinSep (sep : List Char) : List (List Char) → List Char
  | [] => []
  | [g] => g
  | g :: g2 :: gs => g ++ sep ++ joinSep sep (g2 :: gs)

/-- Groups of three characters taken left to right (`[rev[i:i+3] for i
in range(0, len(rev), 3)]`). -/
def chunks3 : List Char → List (List Char)
  | [] => []
  | [a] => [[a]]
  | [a, b] => [[a, b]]
  | a :: b :: c :: rest => [a, b, c] :: chunks3 rest

/-- `group_thousands(integer_part, sep)`: thousands grouping of a digit
string (source lines 40–47). -/
def group_thousands (integer_part : String) (sep : String) : String :=
  if integer_part.data.length ≤ 3 then integer_part
  else
    let rev := integer_part.data.reverse
    let groups := chunks3 rev
    String.mk (joinSep sep.data ((groups.reverse).map List.reverse))

/-- `format_plain(value, locale_cfg, decimals, grouping)` (source lines
50–70).  A negative `decimals` makes the f-string `"{:.-1f}"`, whose
`.format` call raises `ValueError("Format specifier missing precision")`. -/
def format_plain (value : PyFloat) (locale_cfg : LocaleCfg) (decimals : ℤ)
    (grouping : Bool) : Except String String :=
  if decimals < 0 then .error "Format specifier missing precision"
  else
    let sign : List Char := if value.isNeg then ['-'] else []
    let number_str := (pyFixedFormatF value.abs decimals.toNat).data
    let ps :=
      if '.' ∈ number_str then splitOnce '.' number_str
      else (number_str, [])
    let int_part :=
      if grouping then (group_thousands (String.mk ps.1) locale_cfg.thousands_sep).data
      else ps.1
    let result :=
      if 0 < decimals then int_part ++ locale_cfg.decimal_sep.data ++ ps.2
      else int_part
    .ok (String.mk (sign ++ result))

/-- `format_currency(value, locale_cfg, decimals)` (source lines 73–90);
the `ValueError` a negative `decimals` raises in `format_plain`
propagates. -/
def format_currency (value : PyFloat) (locale_cfg : LocaleCfg) (decimals : ℤ) :
    Except String String :=
  match format_plain value locale_cfg decimals true with
  | .error e => .error e
  | .ok base =>
    let sb :=
      match base.data with
      | '-' :: rest => (['-'], rest)
      | l => ([], l)
    let symbol := locale_cfg.currency_symbol.data
    let before := locale_cfg.currency_symbol_position = "before"
    let space := if locale_cfg.currency_symbol_space then [' '] else []
    let formatted_number :=
      if before then symbol ++ space ++ sb.2 else sb.2 ++ space ++ symbol
    .ok (String.mk (sb.1 ++ formatted_number))

/-- `format_scientific(value, locale_cfg, digits=3)` (source lines
93–104).  `raw.split("e")` unpacked into two names raises `ValueError`
when `"e"` does not occur exactly once (such as for `raw = "inf"`). -/
def format_scientific (value : PyFloat) (locale_cfg : LocaleCfg) (digits : ℕ) :
    Except String String :=
  let raw := pySciFormat value digits
  let decimal_sep := locale_cfg.decimal_sep
  if decimal_sep ≠ "." then
    match splitOnChar 'e' raw.data with
    | [mantissa, ex] =>
      .ok (String.mk (replaceFirst mantissa '.' decimal_sep.data) ++ "e" ++
        String.mk ex)
    | [_] => .error "not enough values to unpack (expected 2, got 1)"
    | _ => .error "too many values to unpack (expected 2)"
  else .ok raw

/-- `format_number(value, locale, style, decimals)` (source lines
107–137); raised `ValueError`s become `.error`. -/
def format_number (value : PyFloat) (locale : String) (style : String)
    (decimals : Option ℤ) : Except String String :=
  match localeLookup locale with
  | none => .error ("Unknown locale: " ++ locale)
  | some locale_cfg =>
    let style := pyLower style
    if style = "currency" then
      format_currency value locale_cfg (decimals.getD 2)
    else if style = "comma" ∨ style = "grouped" then
      format_plain value locale_cfg (decimals.getD 0) true
    else if style = "round" ∨ style = "rounded" then
      format_plain value locale_cfg (decimals.getD 0) false
    else if style = "sci" ∨ style = "scientific" then
      format_scientific value locale_cfg 3
    else
      .error ("Unknown style: " ++ style)

/-- ASCII whitespace stripped by Python `float(str)`. -/
def isPyWs (c : Char) : Bool :=
  c = ' ' ∨ c = '\t' ∨ c = '\n' ∨ c = '\r' ∨ c = '\x0b' ∨ c = '\x0c'

/-- Leading decimal digits of a character list, with the remainder. -/
def takeDigits : List Char → List ℕ × List Char
  | [] => ([], [])
  | c :: rest =>
    if c.isDigit then
      let p := takeDigits rest
      ((c.toNat - 48) :: p.1, p.2)
    else ([], c :: rest)

/-- The value of a big-endian decimal digit list. -/
def digitsVal (ds : List ℕ) : ℕ := ds.foldl (fun a d => 10 * a + d) 0

/-- Exponent suffix of a float literal: empty, or `e`/`E`, an optional
sign and a nonempty digit string consuming the rest of the input. -/
def parseExpTail (l : List Char) (mant : ℚ) : Option ℚ :=
  match l with
  | [] => some mant
  | c :: rest =>
    if c = 'e' ∨ c = 'E' then
      let sr :=
        match rest with
        | '+' :: r => (false, r)
        | '-' :: r => (true, r)
        | r => (false, r)
      let p := takeDigits sr.2
      if p.1 ≠ [] ∧ p.2 = [] then
        some (if sr.1 then mant / 10 ^ digitsVal p.1 else mant * 10 ^ digitsVal p.1)
      else none
    else none

/-- Digits-and-dot body of a float literal: `ddd`, `ddd.`, `ddd.ddd` or
`.ddd`, followed by an optional exponent suffix. -/
def parseNumBody (l : List Char) : Option ℚ :=
  let ip := takeDigits l
  match ip.2 with
  | '.' :: r2 =>
    let fp := takeDigits r2
    if ip.1 = [] ∧ fp.1 = [] then none
    else parseExpTail fp.2 ((digitsVal ip.1 : ℚ) + (digitsVal fp.1 : ℚ) / 10 ^ fp.1.length)
  | r =>
    if ip.1 = [] then none else parseExpTail r (digitsVal ip.1)

/-- PEP 515 underscore separators, as CPython `float(str)` validates and
removes them: each `_` must stand directly between two ASCII digits of
the original text (`prev` carries the preceding character). -/
def stripUnderscores : List Char → Option Char → Option (List Char)
  | [], _ => some []
  | c :: rest, prev =>
    if c = '_' then
      match prev, rest with
      | some p, r :: _ =>
        if p.isDigit ∧ r.isDigit then stripUnderscores rest (some '_')
        else none
      | _, _ => none
    else (stripUnderscores rest (some c)).map (c :: ·)

/-- Magnitudes at or above this bound (the rounding midpoint between
the largest finite double and `2^1024`) overflow to infinity when a
decimal literal is converted to a double. -/
def dblOverflow : ℚ := 2 ^ 1024 - 2 ^ 970

/-- Models CPython `float(str)` on ASCII text: whitespace stripped, PEP
515 underscore separators validated and removed, then an optional sign
followed by `inf`/`infinity`/`nan` (case-insensitively) or a decimal
literal; literals whose value reaches the double overflow bound give
`±inf`, as the host conversion does.  CPython first transforms Unicode
decimal digits and whitespace to their ASCII counterparts; non-ASCII
text is outside this model, and the endpoint theorems are stated for
ASCII value texts.  Finite values are kept as exact rationals (the
rounding of the literal to the nearest double, including gradual
underflow to zero, is the idealization stated at the top of the
file). -/
def pyParseFloat (s : String) : Option PyFloat :=
  let l := ((s.data.dropWhile isPyWs).reverse.dropWhile isPyWs).reverse
  match stripUnderscores l none with
  | none => none
  | some lu =>
    let sb :=
      match lu with
      | '+' :: r => (false, r)
      | '-' :: r => (true, r)
      | r => (false, r)
    let low := sb.2.map Char.toLower
    if low = "inf".data ∨ low = "infinity".data then
      some (if sb.1 then .ninf else .inf)
    else if low = "nan".data then some .nan
    else
      match parseNumBody sb.2 with
      | some q =>
        let v := if sb.1 then -q else q
        if dblOverflow ≤ v then some .inf
        else if v ≤ -dblOverflow then some .ninf
        else some (.finite v)
      | none => none

/-- Outcome of one request to the `/format` endpoint: a 400 error JSON
with a message, or a success JSON carrying the `formatted` string. -/
inductive EndpointResult where
  | err (msg : String)
  | ok (formatted : String)
deriving DecidableEq

/-- `format_endpoint` (source lines 143–199), query-string path: the
`value` text is required, parsed with `float`, and `format_number`'s
`ValueError`s are mapped to 400 responses. -/
def format_endpoint (value : Option String) (locale : String) (style : String)
    (decimals : Option ℤ) : EndpointResult :=
  match value with
  | none => .err "value is required"
  | some vtext =>
    match pyParseFloat vtext with
    | none => .err "value must be numeric"
    | some v =>
      match format_number v locale style decimals with
      | .error msg => .err msg
      | .ok s => .ok s

/-- `list_locales` (source lines 202–207): the registry keys in order. -/
def list_locales : List String := LOCALE_CONFIG.map Prod.fst

/-! ### Digit-string lemmas -/

theorem digitChar_isDigit {d : ℕ} (h : d < 10) : (digitChar d).isDigit = true := by
  interval_cases d <;> decide

theorem isDigit_ne {c c₂ : Char} (h : c.isDigit = true) (h₂ : c₂.isDigit = false) :
    c ≠ c₂ := by
  intro e
  rw [e, h₂] at h
  cases h

theorem natDigitsRev_eq (n fuel : ℕ) (h : n ≤ fuel) :
    natDigitsRev n fuel = Nat.digits 10 n := by
  induction n using Nat.strong_induction_on generalizing fuel with
  | _ n ih =>
    match n, fuel with
    | 0, _ => simp [natDigitsRev]
    | n + 1, 0 => omega
    | n + 1, fuel + 1 =>
      rw [natDigitsRev, Nat.digits_def' (by norm_num : (1:ℕ) < 10) (Nat.succ_pos n),
        ih ((n + 1) / 10) (Nat.div_lt_self (Nat.succ_pos n) (by norm_num)) fuel
          (by omega)]

theorem natStr_eq_digits {n : ℕ} (h : n ≠ 0) :
    natStr n = ((Nat.digits 10 n).map digitChar).reverse := by
  rw [natStr, if_neg h, natDigitsRev_eq n n le_rfl]

theorem natStr_all_digit {n : ℕ} : ∀ c ∈ natStr n, c.isDigit = true := by
  intro c hc
  by_cases h : n = 0
  · subst h
    rw [show natStr 0 = ['0'] from rfl] at hc
    simp only [List.mem_singleton] at hc
    subst hc; decide
  · rw [natStr_eq_digits h] at hc
    rw [List.mem_reverse, List.mem_map] at hc
    obtain ⟨d, hd, rfl⟩ := hc
    exact digitChar_isDigit (Nat.digits_lt_base (by norm_num) hd)

theorem natStr_ne_nil (n : ℕ) : natStr n ≠ [] := by
  by_cases h : n = 0
  · subst h; simp [natStr]
  · rw [natStr_eq_digits h]
    simp [Nat.digits_ne_nil_iff_ne_zero.mpr h]

theorem natStr_length_eq {m k : ℕ} (h1 : 10 ^ k ≤ m) (h2 : m < 10 ^ (k + 1)) :
    (natStr m).length = k + 1 := by
  have hm : m ≠ 0 := by
    have := Nat.one_le_pow k 10 (by norm_num)
    omega
  rw [natStr_eq_digits hm, List.length_reverse, List.length_map,
    Nat.digits_len 10 m (by norm_num) hm,
    Nat.log_eq_of_pow_le_of_lt_pow h1 h2]

theorem natStr_length_le {n d : ℕ} (hd : 1 ≤ d) (h : n < 10 ^ d) :
    (natStr n).length ≤ d := by
  by_cases hn : n = 0
  · subst hn; simpa [natStr] using hd
  · rw [natStr_eq_digits hn, List.length_reverse, List.length_map,
      Nat.digits_len 10 n (by norm_num) hn]
    have := Nat.log_lt_of_lt_pow hn h
    omega

theorem fracStr_all_digit {d n : ℕ} : ∀ c ∈ fracStr d n, c.isDigit = true := by
  intro c hc
  rw [fracStr, List.mem_append] at hc
  rcases hc with hc | hc
  · rw [List.eq_of_mem_replicate hc]; decide
  · exact natStr_all_digit c hc

theorem fracStr_length {d n : ℕ} (hd : 1 ≤ d) (h : n < 10 ^ d) :
    (fracStr d n).length = d := by
  rw [fracStr, List.length_append, List.length_replicate]
  have := natStr_length_le hd h
  omega

/-! ### Round-half-to-even lemmas -/

theorem rhe_eq_low {q : ℚ} {n : ℤ} (h1 : (n : ℚ) ≤ q) (h2 : q < n + 1/2) :
    rhe q = n := by
  have hf : ⌊q⌋ = n := by
    rw [Int.floor_eq_iff]
    refine ⟨h1, ?_⟩
    linarith
  simp only [rhe, hf]
  rw [if_pos (by linarith)]

theorem rhe_eq_high {q : ℚ} {n : ℤ} (h1 : (n : ℚ) - 1/2 < q) (h2 : q ≤ n) :
    rhe q = n := by
  rcases eq_or_lt_of_le h2 with he | hlt
  · have hf : ⌊q⌋ = n := by rw [he, Int.floor_intCast]
    simp only [rhe, hf]
    rw [if_pos (by rw [he]; norm_num)]
  · have hf : ⌊q⌋ = n - 1 := by
      rw [Int.floor_eq_iff]
      push_cast
      constructor <;> linarith
    simp only [rhe, hf]
    rw [if_neg (by push_cast; linarith), if_pos (by push_cast; linarith)]
    omega

theorem rhe_eq_tie {q : ℚ} {n : ℤ} (h : q = n + 1/2) (he : 2 ∣ n) : rhe q = n := by
  have hf : ⌊q⌋ = n := by
    rw [Int.floor_eq_iff]
    constructor
    · rw [h]; linarith
    · rw [h]; linarith
  simp only [rhe, hf]
  rw [if_neg (by rw [h]; linarith), if_neg (by rw [h]; linarith), if_pos he]

theorem rhe_bounds (q : ℚ) : |(rhe q : ℚ) - q| ≤ 1/2 := by
  have h0 : (⌊q⌋ : ℚ) ≤ q := Int.floor_le q
  have h1 : q < ⌊q⌋ + 1 := Int.lt_floor_add_one q
  simp only [rhe]
  split_ifs with hc1 hc2 hc3 <;> rw [abs_le] <;> push_cast <;> constructor <;> linarith

theorem rhe_tie_even {q : ℚ} (h : |(rhe q : ℚ) - q| = 1/2) : 2 ∣ rhe q := by
  have h0 : (⌊q⌋ : ℚ) ≤ q := Int.floor_le q
  have h1 : q < ⌊q⌋ + 1 := Int.lt_floor_add_one q
  rcases lt_trichotomy (q - (⌊q⌋ : ℚ)) (1/2) with hc | hc | hc
  · exfalso
    have hq : rhe q = ⌊q⌋ := by simp only [rhe]; rw [if_pos hc]
    rw [hq, abs_eq (by norm_num : (0:ℚ) ≤ 1/2)] at h
    rcases h with h | h <;> linarith
  · have hq : rhe q = if 2 ∣ ⌊q⌋ then ⌊q⌋ else ⌊q⌋ + 1 := by
      simp only [rhe]
      rw [if_neg (by rw [hc]; exact lt_irrefl _), if_neg (by rw [hc]; exact lt_irrefl _)]
    rw [hq]
    split_ifs with hd
    · exact hd
    · omega
  · exfalso
    have hq : rhe q = ⌊q⌋ + 1 := by
      simp only [rhe]
      rw [if_neg (by linarith), if_pos hc]
    rw [hq, abs_eq (by norm_num : (0:ℚ) ≤ 1/2)] at h
    push_cast at h
    rcases h with h | h <;> linarith

theorem rhe_nonneg {q : ℚ} (h : 0 ≤ q) : 0 ≤ rhe q := by
  have h0 : (0:ℤ) ≤ ⌊q⌋ := Int.floor_nonneg.mpr h
  simp only [rhe]
  split_ifs <;> omega

/-! ### Splitting, replacing, joining -/

theorem splitOnce_append {c : Char} {a b : List Char} (h : c ∉ a) :
    splitOnce c (a ++ c :: b) = (a, b) := by
  induction a with
  | nil => simp [splitOnce]
  | cons x xs ih =>
    have hx : x ≠ c := fun e => h (e ▸ List.mem_cons_self x xs)
    simp only [List.cons_append, List.append_eq, splitOnce, if_neg hx,
      ih (fun hm => h (List.mem_cons_of_mem x hm))]

theorem splitOnChar_not_mem {c : Char} {l : List Char} (h : c ∉ l) :
    splitOnChar c l = [l] := by
  induction l with
  | nil => rfl
  | cons x xs ih =>
    have hx : x ≠ c := fun e => h (e ▸ List.mem_cons_self x xs)
    simp only [splitOnChar, if_neg hx, ih (fun hm => h (List.mem_cons_of_mem x hm))]

theorem splitOnChar_two {c : Char} {a b : List Char} (ha : c ∉ a) (hb : c ∉ b) :
    splitOnChar c (a ++ c :: b) = [a, b] := by
  induction a with
  | nil => simp [splitOnChar, splitOnChar_not_mem hb]
  | cons x xs ih =>
    have hx : x ≠ c := fun e => ha (e ▸ List.mem_cons_self x xs)
    simp only [List.cons_append, List.append_eq, splitOnChar, if_neg hx,
      ih (fun hm => ha (List.mem_cons_of_mem x hm))]

theorem replaceFirst_append {old : Char} {a b new : List Char} (h : old ∉ a) :
    replaceFirst (a ++ old :: b) old new = a ++ new ++ b := by
  induction a with
  | nil => simp [replaceFirst]
  | cons x xs ih =>
    have hx : x ≠ old := fun e => h (e ▸ List.mem_cons_self x xs)
    simp only [List.cons_append, List.append_eq, replaceFirst, if_neg hx,
      ih (fun hm => h (List.mem_cons_of_mem x hm)), List.append_assoc]

theorem joinSep_mem {sep : List Char} {L : List (List Char)} {c : Char}
    (h : c ∈ joinSep sep L) : (∃ g ∈ L, c ∈ g) ∨ c ∈ sep := by
  induction L with
  | nil => simp [joinSep] at h
  | cons g gs ih =>
    cases gs with
    | nil => exact Or.inl ⟨g, List.mem_singleton.mpr rfl, h⟩
    | cons g2 gs2 =>
      rw [joinSep] at h
      rcases List.mem_append.mp h with h | h
      · rcases List.mem_append.mp h with h | h
        · exact Or.inl ⟨g, List.mem_cons_self g _, h⟩
        · exact Or.inr h
      · rcases ih h with ⟨g3, hg3, hc3⟩ | h
        · exact Or.inl ⟨g3, List.mem_cons_of_mem g hg3, hc3⟩
        · exact Or.inr h

/-! ### Chunking -/

theorem chunks3_spec (l : List Char) (h : l ≠ []) :
    ∃ gs tl, chunks3 l = gs ++ [tl] ∧ (∀ g ∈ gs, g.length = 3) ∧
      1 ≤ tl.length ∧ tl.length ≤ 3 ∧ (gs ++ [tl]).flatten = l := by
  induction l using chunks3.induct with
  | case1 => exact absurd rfl h
  | case2 a => exact ⟨[], [a], rfl, by simp, by simp, by simp, by simp⟩
  | case3 a b => exact ⟨[], [a, b], rfl, by simp, by simp, by simp, by simp⟩
  | case4 a b c rest ih =>
    by_cases hr : rest = []
    · subst hr
      exact ⟨[], [a, b, c], rfl, by simp, by simp, by simp, by simp⟩
    · obtain ⟨gs, tl, h1, h2, h3, h4, h5⟩ := ih hr
      refine ⟨[a, b, c] :: gs, tl, ?_, ?_, h3, h4, ?_⟩
      · rw [chunks3, h1]
        rfl
      · intro g hg
        rcases List.mem_cons.mp hg with rfl | hg
        · rfl
        · exact h2 g hg
      · simp only [List.cons_append, List.flatten_cons]
        rw [show (gs ++ [tl]).flatten = rest from h5]
        rfl

theorem chunks3_flatten (l : List Char) : (chunks3 l).flatten = l := by
  induction l using chunks3.induct with
  | case1 => rfl
  | case2 a => rfl
  | case3 a b => rfl
  | case4 a b c rest ih =>
    rw [chunks3, List.flatten_cons, ih]
    rfl

/-! ### Structure of `format_plain` on finite values -/

theorem dot_not_mem_natStr (n : ℕ) : '.' ∉ natStr n := fun h =>
  absurd (natStr_all_digit '.' h) (by decide)

theorem dot_not_mem_fracStr (d n : ℕ) : '.' ∉ fracStr d n := fun h =>
  absurd (fracStr_all_digit '.' h) (by decide)

theorem string_append_nil (s : String) : s ++ "" = s := by
  cases s with
  | mk l =>
    show String.mk (l ++ []) = String.mk l
    rw [List.append_nil]

theorem pyFixedFormat_eq {q : ℚ} {d n : ℕ} (hn : rhe (q * 10 ^ d) = (n : ℤ)) :
    pyFixedFormat q d = String.mk (renderFixed n d) := by
  rw [pyFixedFormat, hn, Int.toNat_natCast]

theorem format_plain_finite (q : ℚ) (cfg : LocaleCfg) (d : ℕ) (g : Bool) (n : ℕ)
    (hn : rhe (|q| * 10 ^ d) = (n : ℤ)) :
    format_plain (.finite q) cfg (d : ℤ) g = .ok (String.mk (
      (if q < 0 then ['-'] else []) ++
      ((if g then (group_thousands (String.mk (natStr (n / 10 ^ d)))
            cfg.thousands_sep).data
        else natStr (n / 10 ^ d)) ++
       (if 0 < d then cfg.decimal_sep.data ++ fracStr d (n % 10 ^ d)
        else [])))) := by
  simp only [format_plain]
  rw [if_neg (not_lt.mpr (Int.natCast_nonneg d))]
  simp only [PyFloat.isNeg, PyFloat.abs, decide_eq_true_eq, Int.toNat_natCast,
    pyFixedFormatF, pyFixedFormat_eq hn]
  cases d with
  | zero =>
    have hd : renderFixed n 0 = natStr n := rfl
    simp only [hd, if_neg (dot_not_mem_natStr n), Nat.cast_zero, lt_self_iff_false,
      if_false, pow_zero, Nat.div_one, List.append_nil]
  | succ k =>
    have hd : renderFixed n (k + 1) =
        natStr (n / 10 ^ (k + 1)) ++ '.' :: fracStr (k + 1) (n % 10 ^ (k + 1)) := by
      rw [renderFixed, if_neg (Nat.succ_ne_zero k)]
    have hmem : '.' ∈ natStr (n / 10 ^ (k + 1)) ++
        '.' :: fracStr (k + 1) (n % 10 ^ (k + 1)) :=
      List.mem_append_right _ (List.mem_cons_self '.' _)
    simp only [hd, if_pos hmem, splitOnce_append (dot_not_mem_natStr _),
      if_pos (show (0:ℤ) < ((k + 1 : ℕ) : ℤ) by exact_mod_cast Nat.succ_pos k),
      if_pos (Nat.succ_pos k), List.append_assoc]

theorem fracStr_zero {d : ℕ} (hd : 1 ≤ d) : fracStr d 0 = List.replicate d '0' := by
  rw [fracStr, show natStr 0 = ['0'] from rfl,
    show (['0'] : List Char) = List.replicate 1 '0' from rfl, ← List.replicate_add]
  congr 1
  simp only [List.length_replicate]
  omega

theorem group_thousands_chars {s sep : String} {c : Char}
    (hc : c ∈ (group_thousands s sep).data) : c ∈ s.data ∨ c ∈ sep.data := by
  rw [group_thousands] at hc
  split_ifs at hc with h
  · exact Or.inl hc
  · rcases joinSep_mem hc with ⟨g, hg, hcg⟩ | h2
    · left
      rw [List.mem_map] at hg
      obtain ⟨g', hg', rfl⟩ := hg
      rw [List.mem_reverse] at hg'
      rw [List.mem_reverse] at hcg
      have hflat : c ∈ (chunks3 s.data.reverse).flatten :=
        List.mem_flatten.mpr ⟨g', hg', hcg⟩
      rw [chunks3_flatten] at hflat
      exact List.mem_reverse.mp hflat
    · exact Or.inr h2

/-! ### Scientific-notation lemmas -/

theorem natLog10_bounds : ∀ (fuel n : ℕ), 1 ≤ n → n ≤ fuel →
    10 ^ natLog10 fuel n ≤ n ∧ n < 10 ^ (natLog10 fuel n + 1) := by
  intro fuel
  induction fuel with
  | zero => intro n h1 h2; omega
  | succ f ih =>
    intro n h1 h2
    match n, h1 with
    | n + 1, _ =>
      rw [natLog10]
      split_ifs with hlt
      · constructor
        · simp
        · simpa using hlt
      · push_neg at hlt
        have hd1 : 1 ≤ (n + 1) / 10 := by omega
        have hd2 : (n + 1) / 10 ≤ f := by omega
        obtain ⟨ha, hb⟩ := ih ((n + 1) / 10) hd1 hd2
        constructor
        · rw [pow_succ]
          calc 10 ^ natLog10 f ((n + 1) / 10) * 10 ≤ (n + 1) / 10 * 10 :=
                Nat.mul_le_mul_right 10 ha
            _ ≤ n + 1 := Nat.div_mul_le_self (n + 1) 10
        · have h3 : n + 1 < ((n + 1) / 10 + 1) * 10 := by omega
          calc n + 1 < ((n + 1) / 10 + 1) * 10 := h3
            _ ≤ 10 ^ (natLog10 f ((n + 1) / 10) + 1) * 10 :=
                Nat.mul_le_mul_right 10 (by omega)
            _ = 10 ^ (natLog10 f ((n + 1) / 10) + 1 + 1) := (pow_succ 10 _).symm

theorem smallExp_pos : ∀ (fuel : ℕ) (q : ℚ), 1 ≤ smallExp fuel q := by
  intro fuel q
  cases fuel with
  | zero => exact le_rfl
  | succ f =>
    rw [smallExp]
    split_ifs <;> omega

theorem smallExp_spec : ∀ (fuel : ℕ) (q : ℚ), 0 < q → q < 1 → 1 ≤ q * 10 ^ fuel →
    1 ≤ q * 10 ^ smallExp fuel q ∧ q * 10 ^ (smallExp fuel q - 1) < 1 := by
  intro fuel
  induction fuel with
  | zero =>
    intro q h0 h1 hs
    exfalso
    rw [pow_zero, mul_one] at hs
    linarith
  | succ f ih =>
    intro q h0 h1 hs
    rw [smallExp]
    split_ifs with hc
    · constructor
      · simpa [pow_one] using hc
      · simpa using h1
    · push_neg at hc
      have h0' : 0 < q * 10 := by positivity
      have hs' : 1 ≤ q * 10 * 10 ^ f := by
        calc (1:ℚ) ≤ q * 10 ^ (f + 1) := hs
          _ = q * 10 * 10 ^ f := by ring
      obtain ⟨ha, hb⟩ := ih (q * 10) h0' hc hs'
      obtain ⟨k, hk⟩ : ∃ k, smallExp f (q * 10) = k + 1 :=
        ⟨smallExp f (q * 10) - 1, by have := smallExp_pos f (q * 10); omega⟩
      rw [hk] at ha hb ⊢
      constructor
      · calc (1:ℚ) ≤ q * 10 * 10 ^ (k + 1) := ha
          _ = q * 10 ^ (k + 1 + 1) := by ring
      · have hb' : q * 10 * 10 ^ k < 1 := by simpa using hb
        calc q * 10 ^ (k + 1 + 1 - 1) = q * 10 * 10 ^ k := by
              rw [Nat.add_sub_cancel]; ring
          _ < 1 := hb'

theorem den_pow_ge_one {q : ℚ} (hq : 0 < q) : 1 ≤ q * 10 ^ q.den := by
  have hnum : 1 ≤ (q.num : ℚ) := by exact_mod_cast Rat.num_pos.mpr hq
  have hden : (0:ℚ) < (q.den : ℚ) := by exact_mod_cast q.pos
  have hd10 : (q.den : ℚ) ≤ 10 ^ q.den := by
    exact_mod_cast le_of_lt (Nat.lt_pow_self (by norm_num) q.den)
  have hq10 : ((10:ℚ) ^ q.den : ℚ) ≤ (q.num : ℚ) * 10 ^ q.den := by
    nlinarith [pow_pos (show (0:ℚ) < 10 by norm_num) q.den]
  have hqd : (q.num : ℚ) = q * q.den := by
    have h := Rat.num_div_den q
    rw [div_eq_iff hden.ne'] at h
    linarith [h]
  have key : (q.den : ℚ) ≤ q * 10 ^ q.den * q.den := by
    calc (q.den : ℚ) ≤ 10 ^ q.den := hd10
      _ ≤ (q.num : ℚ) * 10 ^ q.den := hq10
      _ = q * (q.den : ℚ) * 10 ^ q.den := by rw [hqd]
      _ = q * 10 ^ q.den * q.den := by ring
  exact le_of_mul_le_mul_right (by linarith) hden

theorem pySciExp_spec {q : ℚ} (hq : 0 < q) :
    (10:ℚ) ^ pySciExp q ≤ q ∧ q < (10:ℚ) ^ (pySciExp q + 1) := by
  rw [pySciExp]
  split_ifs with h1
  · have hm1 : 1 ≤ ⌊q⌋₊ := Nat.le_floor (by exact_mod_cast h1)
    obtain ⟨ha, hb⟩ := natLog10_bounds ⌊q⌋₊ ⌊q⌋₊ hm1 le_rfl
    constructor
    · rw [zpow_natCast]
      calc (10:ℚ) ^ natLog10 ⌊q⌋₊ ⌊q⌋₊ = ((10 ^ natLog10 ⌊q⌋₊ ⌊q⌋₊ : ℕ) : ℚ) := by
            push_cast; ring
        _ ≤ (⌊q⌋₊ : ℚ) := by exact_mod_cast ha
        _ ≤ q := Nat.floor_le hq.le
    · have hq1 : q < (⌊q⌋₊ : ℚ) + 1 := Nat.lt_floor_add_one q
      have hcast : ((natLog10 ⌊q⌋₊ ⌊q⌋₊ : ℤ) + 1) =
          ((natLog10 ⌊q⌋₊ ⌊q⌋₊ + 1 : ℕ) : ℤ) := by push_cast; ring
      rw [hcast, zpow_natCast]
      have hb' : (⌊q⌋₊ : ℚ) + 1 ≤ ((10 ^ (natLog10 ⌊q⌋₊ ⌊q⌋₊ + 1) : ℕ) : ℚ) := by
        exact_mod_cast Nat.succ_le_of_lt hb
      calc q < (⌊q⌋₊ : ℚ) + 1 := hq1
        _ ≤ _ := by push_cast at hb' ⊢; linarith
  · push_neg at h1
    obtain ⟨ha, hb⟩ := smallExp_spec q.den q hq h1 (den_pow_ge_one hq)
    have hk1 := smallExp_pos q.den q
    have hp : (0:ℚ) < 10 ^ smallExp q.den q := by positivity
    constructor
    · rw [zpow_neg, zpow_natCast, ← one_div, div_le_iff₀ hp]
      linarith
    · have hp' : (0:ℚ) < 10 ^ (smallExp q.den q - 1) := by positivity
      have hlt : q < 1 / 10 ^ (smallExp q.den q - 1) := by
        rw [lt_div_iff₀ hp']
        linarith
      have he : (-(smallExp q.den q : ℤ) + 1) = -((smallExp q.den q - 1 : ℕ) : ℤ) := by
        rw [Nat.cast_sub hk1]
        push_cast
        ring
      rw [he, zpow_neg, zpow_natCast, ← one_div]
      exact hlt

theorem pySciParts_spec {q : ℚ} (hq : 0 < q) (digits : ℕ) :
    10 ^ digits ≤ (pySciParts q digits).1 ∧
      (pySciParts q digits).1 < 10 ^ (digits + 1) := by
  obtain ⟨ha, hb⟩ := pySciExp_spec hq
  have hpe : (0:ℚ) < (10:ℚ) ^ pySciExp q := by positivity
  have hpd : (0:ℚ) < (10:ℚ) ^ digits := by positivity
  have hx1 : (10:ℚ) ^ digits ≤ q / 10 ^ pySciExp q * 10 ^ digits := by
    have h1 : (1:ℚ) ≤ q / 10 ^ pySciExp q := (one_le_div hpe).mpr ha
    nlinarith
  have hx2 : q / 10 ^ pySciExp q * 10 ^ digits < 10 ^ (digits + 1) := by
    have h2 : q / 10 ^ pySciExp q < 10 := by
      rw [div_lt_iff₀ hpe]
      calc q < 10 ^ (pySciExp q + 1) := hb
        _ = 10 * 10 ^ pySciExp q := by
            rw [zpow_add_one₀ (by norm_num : (10:ℚ) ≠ 0)]; ring
    calc q / 10 ^ pySciExp q * 10 ^ digits < 10 * 10 ^ digits := by nlinarith
      _ = 10 ^ (digits + 1) := by rw [pow_succ]; ring
  have hrb := rhe_bounds (q / 10 ^ pySciExp q * 10 ^ digits)
  rw [abs_le] at hrb
  have hm1 : ((10 ^ digits : ℕ) : ℤ) ≤ rhe (q / 10 ^ pySciExp q * 10 ^ digits) := by
    have : ((10 ^ digits : ℕ) : ℚ) - 1 <
        ((rhe (q / 10 ^ pySciExp q * 10 ^ digits) : ℤ) : ℚ) := by
      push_cast
      linarith [hrb.1, hrb.2]
    have h' : ((10 ^ digits : ℕ) : ℤ) - 1 < rhe (q / 10 ^ pySciExp q * 10 ^ digits) := by
      exact_mod_cast this
    omega
  have hm2 : rhe (q / 10 ^ pySciExp q * 10 ^ digits) ≤ ((10 ^ (digits + 1) : ℕ) : ℤ) := by
    have : ((rhe (q / 10 ^ pySciExp q * 10 ^ digits) : ℤ) : ℚ) <
        ((10 ^ (digits + 1) : ℕ) : ℚ) + 1 := by
      push_cast
      linarith [hrb.1, hrb.2]
    have h' : rhe (q / 10 ^ pySciExp q * 10 ^ digits) <
        ((10 ^ (digits + 1) : ℕ) : ℤ) + 1 := by exact_mod_cast this
    omega
  rw [pySciParts]
  have hQ : ((10 ^ (digits + 1) : ℕ) : ℤ) = (10:ℤ) ^ (digits + 1) := by push_cast; ring
  have hP : ((10 ^ digits : ℕ) : ℤ) = (10:ℤ) ^ digits := by push_cast; ring
  split_ifs with hc
  · constructor
    · exact le_rfl
    · exact Nat.pow_lt_pow_succ (by norm_num)
  · rw [hQ] at hm2
    rw [hP] at hm1
    constructor
    · have := Nat.pow_lt_pow_succ (show 1 < 10 by norm_num) (n := digits)
      omega
    · omega

theorem list_len_four {l : List Char} (h : l.length = 4) :
    ∃ a b c d, l = [a, b, c, d] := by
  match l, h with
  | [a, b, c, d], _ => exact ⟨a, b, c, d, rfl⟩

theorem expStr_data (e : ℤ) : (expStr e).data =
    (if e < 0 then '-' else '+') ::
      (if (natStr e.natAbs).length < 2 then '0' :: natStr e.natAbs
       else natStr e.natAbs) := by
  simp only [expStr]

theorem expStr_chars (e : ℤ) : '.' ∉ (expStr e).data ∧ 'e' ∉ (expStr e).data := by
  rw [expStr_data]
  have hds : ∀ c ∈ (if (natStr e.natAbs).length < 2 then '0' :: natStr e.natAbs
      else natStr e.natAbs), c.isDigit = true := by
    intro c hc
    split_ifs at hc with h
    · rcases List.mem_cons.mp hc with rfl | hc
      · decide
      · exact natStr_all_digit c hc
    · exact natStr_all_digit c hc
  constructor
  · intro hmem
    rcases List.mem_cons.mp hmem with h | h
    · revert h
      split_ifs <;> decide
    · exact absurd (hds '.' h) (by decide)
  · intro hmem
    rcases List.mem_cons.mp hmem with h | h
    · revert h
      split_ifs <;> decide
    · exact absurd (hds 'e' h) (by decide)

theorem pySciFormat_finite_data (q : ℚ) (digits : ℕ) (h0 : |q| ≠ 0) :
    (pySciFormat (.finite q) digits).data =
      (if q < 0 then ['-'] else []) ++
        (sciMantissa (pySciParts |q| digits).1 digits ++
          'e' :: (expStr (pySciParts |q| digits).2).data) := by
  simp only [pySciFormat, if_neg h0]
  rw [String.data_append, String.data_append, String.data_append]
  rw [apply_ite String.data]
  simp only [show ("-" : String).data = ['-'] from rfl,
    show ("" : String).data = [] from rfl,
    show ("e" : String).data = ['e'] from rfl]
  simp [List.append_assoc]

theorem pySciFormat_decomp (q : ℚ) :
    ∃ m1 m2 ex : List Char,
      (pySciFormat (.finite q) 3).data = m1 ++ '.' :: (m2 ++ 'e' :: ex) ∧
      '.' ∉ m1 ∧ 'e' ∉ m1 ∧ (∀ c ∈ m2, c.isDigit = true) ∧ m2.length = 3 ∧
      '.' ∉ ex ∧ 'e' ∉ ex := by
  by_cases h0 : |q| = 0
  · have hq : q = 0 := abs_eq_zero.mp h0
    subst hq
    refine ⟨['0'], ['0', '0', '0'], ['+', '0', '0'], ?_, by decide, by decide,
      by decide, by decide, by decide, by decide⟩
    simp only [pySciFormat, if_pos abs_zero, if_neg (lt_irrefl (0:ℚ))]
    rfl
  · have hq : 0 < |q| := (abs_nonneg q).lt_of_ne (Ne.symm h0)
    obtain ⟨h1, h2⟩ := pySciParts_spec hq 3
    obtain ⟨c0, c1, c2, c3, hm⟩ := list_len_four (natStr_length_eq h1 h2)
    have hdig : ∀ c ∈ [c0, c1, c2, c3], c.isDigit = true := by
      rw [← hm]
      exact natStr_all_digit
    have hc0 : c0.isDigit = true := hdig c0 (by simp)
    have hsm : sciMantissa (pySciParts |q| 3).1 3 = c0 :: '.' :: [c1, c2, c3] := by
      simp [sciMantissa, hm]
    obtain ⟨hex1, hex2⟩ := expStr_chars (pySciParts |q| 3).2
    refine ⟨(if q < 0 then ['-'] else []) ++ [c0], [c1, c2, c3],
      (expStr (pySciParts |q| 3).2).data, ?_, ?_, ?_, ?_, rfl, hex1, hex2⟩
    · rw [pySciFormat_finite_data q 3 h0, hsm]
      simp [List.append_assoc]
    · intro hmem
      rcases List.mem_append.mp hmem with h | h
      · revert h
        split_ifs <;> decide
      · rw [List.mem_singleton] at h
        exact absurd (h ▸ hc0) (by decide)
    · intro hmem
      rcases List.mem_append.mp hmem with h | h
      · revert h
        split_ifs <;> decide
      · rw [List.mem_singleton] at h
        exact absurd (h ▸ hc0) (by decide)
    · intro c hc
      exact hdig c (List.mem_cons_of_mem c0 hc)

theorem format_scientific_dot {v : PyFloat} {cfg : LocaleCfg} {digits : ℕ}
    (h : cfg.decimal_sep = ".") :
    format_scientific v cfg digits = .ok (pySciFormat v digits) := by
  simp [format_scientific, h]

theorem format_scientific_subst {q : ℚ} {cfg : LocaleCfg}
    (hsep : cfg.decimal_sep ≠ ".") {m1 m2 ex : List Char}
    (hd : (pySciFormat (.finite q) 3).data = m1 ++ '.' :: (m2 ++ 'e' :: ex))
    (h1 : '.' ∉ m1) (he1 : 'e' ∉ m1) (hm2 : ∀ c ∈ m2, c.isDigit = true)
    (hee : 'e' ∉ ex) :
    format_scientific (.finite q) cfg 3 =
      .ok (String.mk ((m1 ++ cfg.decimal_sep.data ++ m2) ++ 'e' :: ex)) := by
  have hem : 'e' ∉ m1 ++ '.' :: m2 := by
    intro hmem
    rcases List.mem_append.mp hmem with h | h
    · exact he1 h
    · rcases List.mem_cons.mp h with h | h
      · exact absurd h (by decide)
      · exact absurd (hm2 'e' h) (by decide)
  have hsplit : splitOnChar 'e' (pySciFormat (.finite q) 3).data = [m1 ++ '.' :: m2, ex] := by
    rw [hd, show m1 ++ '.' :: (m2 ++ 'e' :: ex) = (m1 ++ '.' :: m2) ++ 'e' :: ex by simp]
    exact splitOnChar_two hem hee
  simp only [format_scientific, if_pos hsep, hsplit]
  rw [replaceFirst_append h1]
  show Except.ok (String.mk ((m1 ++ cfg.decimal_sep.data ++ m2) ++ ['e'] ++ ex)) = _
  rw [show (m1 ++ cfg.decimal_sep.data ++ m2) ++ ['e'] ++ ex =
    (m1 ++ cfg.decimal_sep.data ++ m2) ++ 'e' :: ex by simp]

theorem pySciFormat_eval {q : ℚ} (hq : 0 < q) {e : ℤ} {m : ℕ}
    (he : pySciExp q = e) (hm : rhe (q / 10 ^ e * 10 ^ 3) = (m : ℤ))
    (hne : (m : ℤ) ≠ 10 ^ (3 + 1)) :
    pySciFormat (.finite q) 3 = String.mk (sciMantissa m 3) ++ "e" ++ expStr e := by
  have habs : |q| = q := abs_of_pos hq
  simp only [pySciFormat, habs, if_neg hq.ne', if_neg (not_lt.mpr hq.le),
    pySciParts, he, hm, if_neg hne, Int.toNat_natCast]
  rfl

theorem format_scientific_finite_isOk (q : ℚ) (cfg : LocaleCfg) :
    ∃ s, format_scientific (.finite q) cfg 3 = .ok s := by
  by_cases h : cfg.decimal_sep = "."
  · exact ⟨_, format_scientific_dot h⟩
  · obtain ⟨m1, m2, ex, hd, hdot1, he1, hm2, _, _, hexe⟩ := pySciFormat_decomp q
    exact ⟨_, format_scientific_subst h hd hdot1 he1 hm2 hexe⟩

theorem format_plain_isOk (v : PyFloat) (cfg : LocaleCfg) (d : ℤ) (g : Bool)
    (hd : 0 ≤ d) : ∃ s, format_plain v cfg d g = .ok s := by
  rw [format_plain, if_neg (not_lt.mpr hd)]
  exact ⟨_, rfl⟩

theorem format_currency_isOk (v : PyFloat) (cfg : LocaleCfg) (d : ℤ)
    (hd : 0 ≤ d) : ∃ s, format_currency v cfg d = .ok s := by
  obtain ⟨s, hs⟩ := format_plain_isOk v cfg d true hd
  rw [format_currency, hs]
  exact ⟨_, rfl⟩

theorem format_plain_neg (v : PyFloat) (cfg : LocaleCfg) (d : ℤ) (g : Bool)
    (hd : d < 0) :
    format_plain v cfg d g = .error "Format specifier missing precision" := by
  rw [format_plain, if_pos hd]

theorem format_currency_neg (v : PyFloat) (cfg : LocaleCfg) (d : ℤ)
    (hd : d < 0) :
    format_currency v cfg d = .error "Format specifier missing precision" := by
  rw [format_currency, format_plain_neg v cfg d true hd]

/-! ### Dispatcher lemmas -/

theorem localeLookup_US : localeLookup "US" = some usCfg := rfl

theorem localeLookup_EU : localeLookup "EU" = some euCfg := rfl

theorem localeLookup_UK : localeLookup "UK" = some ukCfg := rfl

theorem localeLookup_cases {L : String} {cfg : LocaleCfg}
    (h : localeLookup L = some cfg) : cfg = usCfg ∨ cfg = euCfg ∨ cfg = ukCfg := by
  rw [localeLookup] at h
  rcases Option.map_eq_some'.mp h with ⟨p, hp, rfl⟩
  have hm := List.mem_of_find?_eq_some hp
  simp only [LOCALE_CONFIG, List.mem_cons, List.not_mem_nil, or_false] at hm
  rcases hm with rfl | rfl | rfl
  · exact Or.inl rfl
  · exact Or.inr (Or.inl rfl)
  · exact Or.inr (Or.inr rfl)

theorem format_number_none {v : PyFloat} {loc style : String} {d : Option ℤ}
    (hL : localeLookup loc = none) :
    format_number v loc style d = .error ("Unknown locale: " ++ loc) := by
  simp only [format_number, hL]

theorem format_number_some {v : PyFloat} {loc style : String} {d : Option ℤ}
    {cfg : LocaleCfg} (hL : localeLookup loc = some cfg) :
    format_number v loc style d =
      (if pyLower style = "currency" then format_currency v cfg (d.getD 2)
       else if pyLower style = "comma" ∨ pyLower style = "grouped" then
         format_plain v cfg (d.getD 0) true
       else if pyLower style = "round" ∨ pyLower style = "rounded" then
         format_plain v cfg (d.getD 0) false
       else if pyLower style = "sci" ∨ pyLower style = "scientific" then
         format_scientific v cfg 3
       else .error ("Unknown style: " ++ pyLower style)) := by
  simp only [format_number, hL]

/-! ### Claim theorems -/

/-- C3: for every string of ASCII decimal digits and every separator,
`group_thousands` returns the string unchanged when its length is at
most 3 (including `""` and `"000"`), and otherwise returns the digits
partitioned into groups of 3 counted from the rightmost digit, the
leftmost group having 1 to 3 digits, joined left-to-right with the
separator. -/
theorem C3_grouping (s sep : String) (h : ∀ c ∈ s.data, c.isDigit = true) :
    (s.data.length ≤ 3 → group_thousands s sep = s) ∧
    (3 < s.data.length →
      ∃ g gs, (group_thousands s sep).data = joinSep sep.data (g :: gs) ∧
        (g :: gs).flatten = s.data ∧ 1 ≤ g.length ∧ g.length ≤ 3 ∧
        ∀ g2 ∈ gs, g2.length = 3) := by
  constructor
  · intro hle
    rw [group_thousands, if_pos hle]
  · intro hgt
    simp only [group_thousands]
    rw [if_neg (not_le.mpr hgt)]
    have hne : s.data.reverse ≠ [] := by
      intro h'
      rw [List.reverse_eq_nil_iff] at h'
      rw [h'] at hgt
      simp at hgt
    obtain ⟨gs', tl, h1, h2, h3, h4, h5⟩ := chunks3_spec s.data.reverse hne
    refine ⟨tl.reverse, gs'.reverse.map List.reverse, ?_, ?_, by simpa using h3,
      by simpa using h4, ?_⟩
    · rw [h1]
      simp [List.reverse_append]
    · calc (tl.reverse :: gs'.reverse.map List.reverse).flatten
          = ((gs' ++ [tl]).map List.reverse).reverse.flatten := by
            simp [List.reverse_append, List.map_reverse]
        _ = ((gs' ++ [tl]).flatten).reverse := (List.reverse_flatten _).symm
        _ = s.data.reverse.reverse := by rw [h5]
        _ = s.data := List.reverse_reverse _
    · intro g2 hg2
      rw [List.mem_map] at hg2
      obtain ⟨g', hg', rfl⟩ := hg2
      rw [List.mem_reverse] at hg'
      simpa using h2 g' hg'

/-- Witness for C3 at the digit strings `"123"` (unchanged) and `"1234"`
(split into a 1-digit leftmost group and one 3-digit group). -/
theorem C3_witness :
    group_thousands "123" "," = "123" ∧
    ∃ g gs, (group_thousands "1234" ",").data = joinSep ("," : String).data (g :: gs) ∧
      (g :: gs).flatten = ("1234" : String).data ∧ 1 ≤ g.length ∧ g.length ≤ 3 ∧
      ∀ g2 ∈ gs, g2.length = 3 :=
  ⟨(C3_grouping "123" "," (by decide)).1 (by decide),
   (C3_grouping "1234" "," (by decide)).2 (by decide)⟩

/-- C2 (amended): the plain renderer rounds `abs(value)` scaled by
`10^decimals` to the nearest integer with correct rounding, resolving
exact ties to even (the behaviour of the host float formatting), not
half-away-from-zero; the rendered digit string is that integer split at
`decimals` digits. -/
theorem C2_rounding (q : ℚ) (cfg : LocaleCfg) (d : ℕ) :
    ∃ n : ℕ,
      format_plain (.finite q) cfg (d : ℤ) false = .ok (String.mk (
        (if q < 0 then ['-'] else []) ++
        (natStr (n / 10 ^ d) ++
         (if 0 < d then cfg.decimal_sep.data ++ fracStr d (n % 10 ^ d)
          else [])))) ∧
      |(n : ℚ) - |q| * 10 ^ d| ≤ 1/2 ∧
      (|(n : ℚ) - |q| * 10 ^ d| = 1/2 → 2 ∣ n) := by
  have hx : (0:ℚ) ≤ |q| * 10 ^ d := by positivity
  have hnn := rhe_nonneg hx
  have hrhe : rhe (|q| * 10 ^ d) = (((rhe (|q| * 10 ^ d)).toNat : ℕ) : ℤ) :=
    (Int.toNat_of_nonneg hnn).symm
  have hcast : (((rhe (|q| * 10 ^ d)).toNat : ℕ) : ℚ) =
      ((rhe (|q| * 10 ^ d) : ℤ) : ℚ) := by
    exact_mod_cast congrArg (fun z : ℤ => (z : ℚ)) (Int.toNat_of_nonneg hnn)
  refine ⟨(rhe (|q| * 10 ^ d)).toNat, ?_, ?_, ?_⟩
  · exact (format_plain_finite q cfg d false _ hrhe).trans (by
      rw [if_neg (by decide : ¬(false = true))])
  · rw [hcast]
    exact rhe_bounds (|q| * 10 ^ d)
  · intro htie
    rw [hcast] at htie
    have := rhe_tie_even htie
    omega

/-- Witness for C2's amended rounding statement at `2.5` with 0 decimals. -/
theorem C2_witness :
    ∃ n : ℕ,
      format_plain (.finite ((5:ℚ)/2)) usCfg ((0:ℕ) : ℤ) false = .ok (String.mk (
        (if (5:ℚ)/2 < 0 then ['-'] else []) ++
        (natStr (n / 10 ^ 0) ++
         (if 0 < 0 then usCfg.decimal_sep.data ++ fracStr 0 (n % 10 ^ 0)
          else [])))) ∧
      |(n : ℚ) - |(5:ℚ)/2| * 10 ^ 0| ≤ 1/2 ∧
      (|(n : ℚ) - |(5:ℚ)/2| * 10 ^ 0| = 1/2 → 2 ∣ n) :=
  C2_rounding (5/2) usCfg 0

/-- C2 counterexample: the claim predicts round-half-away-from-zero, so
`2.5` at 0 decimals would render `"3"`; the code renders `"2"`
(ties-to-even), already at an exactly-representable binary value. -/
theorem C2_counterexample :
    format_number (.finite (5/2)) "US" "rounded" (some 0) = .ok "2" ∧
    format_number (.finite (5/2)) "US" "rounded" (some 0) ≠ .ok "3" := by
  have hrhe : rhe (|(5:ℚ)/2| * 10 ^ 0) = ((2:ℕ) : ℤ) := by
    rw [show |(5:ℚ)/2| = 5/2 from abs_of_pos (by norm_num), pow_zero, mul_one]
    exact rhe_eq_tie (by norm_num) ⟨1, rfl⟩
  have h1 : format_plain (.finite ((5:ℚ)/2)) usCfg (0:ℤ) false = .ok "2" :=
    (format_plain_finite (5/2) usCfg 0 false 2 hrhe).trans (by
      rw [if_neg (show ¬((5:ℚ)/2 < 0) by norm_num)]
      rfl)
  have heq : format_number (.finite (5/2)) "US" "rounded" (some 0) = .ok "2" := by
    rw [format_number_some localeLookup_US, if_neg (by decide), if_neg (by decide),
      if_pos (Or.inr (show pyLower "rounded" = "rounded" from rfl))]
    exact h1
  refine ⟨heq, ?_⟩
  rw [heq]
  intro hco
  exact absurd (Except.ok.inj hco) (by decide)

/-- C5: for every supported locale, finite value, and decimals `d ≥ 0`,
the plain renderer's output is an optional leading `-`, an integer digit
block (grouped with the locale's thousands separator only when grouping
is enabled), and — exactly when `d > 0` — the locale's decimal separator
followed by exactly `d` digits; the fractional block is all digits,
hence never grouped. -/
theorem C5_plain_shape (L : String) (cfg : LocaleCfg)
    (hL : localeLookup L = some cfg) (q : ℚ) (d : ℕ) (g : Bool) :
    ∃ ip fp : List Char,
      (∀ c ∈ ip, c.isDigit = true) ∧ (∀ c ∈ fp, c.isDigit = true) ∧
      fp.length = d ∧
      (∀ c ∈ (group_thousands (String.mk ip) cfg.thousands_sep).data,
        c.isDigit = true ∨ c ∈ cfg.thousands_sep.data) ∧
      format_plain (.finite q) cfg (d : ℤ) g = .ok (String.mk (
        (if q < 0 then ['-'] else []) ++
        ((if g then (group_thousands (String.mk ip) cfg.thousands_sep).data
          else ip) ++
         (if 0 < d then cfg.decimal_sep.data ++ fp else [])))) := by
  have hx : (0:ℚ) ≤ |q| * 10 ^ d := by positivity
  have hnn := rhe_nonneg hx
  set n := (rhe (|q| * 10 ^ d)).toNat with hndef
  have hrhe : rhe (|q| * 10 ^ d) = ((n : ℕ) : ℤ) := (Int.toNat_of_nonneg hnn).symm
  have hgrp : ∀ c ∈ (group_thousands (String.mk (natStr (n / 10 ^ d)))
      cfg.thousands_sep).data, c.isDigit = true ∨ c ∈ cfg.thousands_sep.data := by
    intro c hc
    rcases group_thousands_chars hc with h | h
    · exact Or.inl (natStr_all_digit c h)
    · exact Or.inr h
  cases d with
  | zero =>
    refine ⟨natStr (n / 10 ^ 0), [], natStr_all_digit, by simp, rfl, hgrp, ?_⟩
    exact (format_plain_finite q cfg 0 g n hrhe).trans (by
      rw [if_neg (lt_irrefl 0), if_neg (lt_irrefl 0)])
  | succ k =>
    refine ⟨natStr (n / 10 ^ (k + 1)), fracStr (k + 1) (n % 10 ^ (k + 1)),
      natStr_all_digit, fracStr_all_digit, ?_, hgrp, ?_⟩
    · exact fracStr_length (Nat.succ_le_succ (Nat.zero_le k))
        (Nat.mod_lt _ (by positivity))
    · exact format_plain_finite q cfg (k + 1) g n hrhe

/-- Witness for C5 at locale `"EU"`, value `-3/2`, 2 decimals, grouping on. -/
theorem C5_witness :
    ∃ ip fp : List Char,
      (∀ c ∈ ip, c.isDigit = true) ∧ (∀ c ∈ fp, c.isDigit = true) ∧
      fp.length = 2 ∧
      (∀ c ∈ (group_thousands (String.mk ip) euCfg.thousands_sep).data,
        c.isDigit = true ∨ c ∈ euCfg.thousands_sep.data) ∧
      format_plain (.finite (-3/2)) euCfg ((2:ℕ) : ℤ) true = .ok (String.mk (
        (if (-3:ℚ)/2 < 0 then ['-'] else []) ++
        ((if true then (group_thousands (String.mk ip) euCfg.thousands_sep).data
          else ip) ++
         (if 0 < 2 then euCfg.decimal_sep.data ++ fp else [])))) :=
  C5_plain_shape "EU" euCfg localeLookup_EU (-3/2) 2 true

/-- C10: the plain renderer takes the sign from the value before
rounding: a negative value in `(-1, 0)` whose magnitude rounds to zero
still renders with a leading `-` (`"-0"`, and `"-$0"` as currency),
whereas the value `0` (the model of Python's `-0.0`, which is not `< 0`)
renders as `"0"` with no sign. -/
theorem C10_signed_zero :
    (∀ (q : ℚ) (cfg : LocaleCfg) (d : ℕ), -1 < q → q < 0 →
      rhe (|q| * 10 ^ d) = 0 →
      format_plain (.finite q) cfg (d : ℤ) false = .ok (String.mk
        ('-' :: '0' ::
          (if 0 < d then cfg.decimal_sep.data ++ List.replicate d '0'
           else [])))) ∧
    (∀ cfg : LocaleCfg, format_plain (.finite 0) cfg ((0:ℕ) : ℤ) false = .ok "0") ∧
    format_currency (.finite (-2/5)) usCfg ((0:ℕ) : ℤ) = .ok "-$0" := by
  have hzero : ∀ (q : ℚ) (cfg : LocaleCfg) (d : ℕ), -1 < q → q < 0 →
      rhe (|q| * 10 ^ d) = 0 →
      format_plain (.finite q) cfg (d : ℤ) false = .ok (String.mk
        ('-' :: '0' ::
          (if 0 < d then cfg.decimal_sep.data ++ List.replicate d '0'
           else []))) := by
    intro q cfg d h1 h2 h0
    have hrhe : rhe (|q| * 10 ^ d) = ((0:ℕ) : ℤ) := by rw [h0]; rfl
    refine (format_plain_finite q cfg d false 0 hrhe).trans ?_
    rw [if_pos h2, if_neg (by decide : ¬(false = true))]
    cases d with
    | zero => rfl
    | succ k =>
      rw [if_pos (Nat.succ_pos k), if_pos (Nat.succ_pos k), Nat.zero_mod,
        fracStr_zero (Nat.succ_le_succ (Nat.zero_le k)), Nat.zero_div]
      rfl
  refine ⟨hzero, ?_, ?_⟩
  · intro cfg
    have hrhe : rhe (|(0:ℚ)| * 10 ^ 0) = ((0:ℕ) : ℤ) := by
      rw [abs_zero, pow_zero, mul_one]
      exact rhe_eq_low (by norm_num) (by norm_num)
    exact (format_plain_finite 0 cfg 0 false 0 hrhe).trans (by
      rw [if_neg (lt_irrefl (0:ℚ))]
      rfl)
  · have h0 : rhe (|(-2:ℚ)/5| * 10 ^ 0) = 0 := by
      rw [show |(-2:ℚ)/5| = 2/5 by rw [abs_of_neg (by norm_num)]; norm_num,
        pow_zero, mul_one]
      exact rhe_eq_low (by norm_num) (by norm_num)
    have hrhe : rhe (|(-2:ℚ)/5| * 10 ^ 0) = ((0:ℕ) : ℤ) := by rw [h0]; rfl
    have hp : format_plain (.finite ((-2:ℚ)/5)) usCfg ((0:ℕ) : ℤ) true = .ok "-0" :=
      (format_plain_finite (-2/5) usCfg 0 true 0 hrhe).trans (by
        rw [if_pos (show (-2:ℚ)/5 < 0 by norm_num)]
        rfl)
    rw [format_currency, hp]
    rfl

/-- Witness for C10 at `q = -0.4`, 0 decimals, locale `"US"`. -/
theorem C10_witness :
    ((-1:ℚ) < -2/5 ∧ (-2:ℚ)/5 < 0 ∧ rhe (|(-2:ℚ)/5| * 10 ^ 0) = 0) ∧
    format_plain (.finite ((-2:ℚ)/5)) usCfg ((0:ℕ) : ℤ) false = .ok (String.mk
      ('-' :: '0' ::
        (if 0 < 0 then usCfg.decimal_sep.data ++ List.replicate 0 '0'
         else []))) := by
  have h0 : rhe (|(-2:ℚ)/5| * 10 ^ 0) = 0 := by
    rw [show |(-2:ℚ)/5| = 2/5 by rw [abs_of_neg (by norm_num)]; norm_num,
      pow_zero, mul_one]
    exact rhe_eq_low (by norm_num) (by norm_num)
  exact ⟨⟨by norm_num, by norm_num, h0⟩,
    C10_signed_zero.1 (-2/5) usCfg 0 (by norm_num) (by norm_num) h0⟩

/-- C4: for every negative finite value and registry locale, the
currency renderer's output starts with `-` followed by the symbol-and-
magnitude arrangement (symbol before or after per the profile, one space
exactly when the space flag is set), the magnitude containing no `-`;
and `format(1234.5, "US", "currency", 2) = "$1,234.50"`,
`format(1234.5, "EU", "currency", 2) = "1.234,50 €"`. -/
theorem C4_currency_sign :
    (∀ (L : String) (cfg : LocaleCfg), localeLookup L = some cfg →
      ∀ (q : ℚ) (d : ℕ), q < 0 →
      ∃ mag : List Char, '-' ∉ mag ∧
        format_plain (.finite q) cfg (d : ℤ) true = .ok (String.mk ('-' :: mag)) ∧
        format_currency (.finite q) cfg (d : ℤ) = .ok (String.mk ('-' ::
          (if cfg.currency_symbol_position = "before" then
            cfg.currency_symbol.data ++
              (if cfg.currency_symbol_space then [' '] else []) ++ mag
           else
            mag ++ (if cfg.currency_symbol_space then [' '] else []) ++
              cfg.currency_symbol.data)))) ∧
    format_number (.finite (2469/2)) "US" "currency" (some 2) = .ok "$1,234.50" ∧
    format_number (.finite (2469/2)) "EU" "currency" (some 2) = .ok "1.234,50 €" := by
  refine ⟨?_, ?_, ?_⟩
  · intro L cfg hL q d hq
    have hx : (0:ℚ) ≤ |q| * 10 ^ d := by positivity
    have hnn := rhe_nonneg hx
    set n := (rhe (|q| * 10 ^ d)).toNat with hndef
    have hrhe : rhe (|q| * 10 ^ d) = ((n : ℕ) : ℤ) := (Int.toNat_of_nonneg hnn).symm
    set mag := (group_thousands (String.mk (natStr (n / 10 ^ d)))
        cfg.thousands_sep).data ++
      (if 0 < d then cfg.decimal_sep.data ++ fracStr d (n % 10 ^ d) else [])
      with hmag
    have hsep : '-' ∉ cfg.thousands_sep.data ∧ '-' ∉ cfg.decimal_sep.data := by
      rcases localeLookup_cases hL with rfl | rfl | rfl <;> exact ⟨by decide, by decide⟩
    have hmagchars : '-' ∉ mag := by
      intro hmem
      rw [hmag] at hmem
      rcases List.mem_append.mp hmem with h | h
      · rcases group_thousands_chars h with h' | h'
        · exact absurd (natStr_all_digit _ h') (by decide)
        · exact hsep.1 h'
      · split_ifs at h
        · rcases List.mem_append.mp h with h' | h'
          · exact hsep.2 h'
          · exact absurd (fracStr_all_digit _ h') (by decide)
        · exact List.not_mem_nil _ h
    have hp : format_plain (.finite q) cfg (d : ℤ) true = .ok (String.mk ('-' :: mag)) :=
      (format_plain_finite q cfg d true n hrhe).trans (by
        rw [if_pos hq, if_pos (show true = true from rfl), hmag,
          List.singleton_append])
    refine ⟨mag, hmagchars, hp, ?_⟩
    rw [format_currency, hp]
    rfl
  · have hrhe : rhe (|(2469:ℚ)/2| * 10 ^ 2) = ((123450 : ℕ) : ℤ) := by
      rw [show |(2469:ℚ)/2| = 2469/2 from abs_of_pos (by norm_num)]
      exact rhe_eq_low (by norm_num) (by norm_num)
    have h1 : format_plain (.finite ((2469:ℚ)/2)) usCfg (2:ℤ) true = .ok "1,234.50" :=
      (format_plain_finite (2469/2) usCfg 2 true 123450 hrhe).trans (by
        rw [if_neg (show ¬((2469:ℚ)/2 < 0) by norm_num)]
        rfl)
    rw [format_number_some localeLookup_US,
      if_pos (show pyLower "currency" = "currency" from rfl)]
    show format_currency _ usCfg 2 = _
    rw [format_currency, h1]
    rfl
  · have hrhe : rhe (|(2469:ℚ)/2| * 10 ^ 2) = ((123450 : ℕ) : ℤ) := by
      rw [show |(2469:ℚ)/2| = 2469/2 from abs_of_pos (by norm_num)]
      exact rhe_eq_low (by norm_num) (by norm_num)
    have h1 : format_plain (.finite ((2469:ℚ)/2)) euCfg (2:ℤ) true = .ok "1.234,50" :=
      (format_plain_finite (2469/2) euCfg 2 true 123450 hrhe).trans (by
        rw [if_neg (show ¬((2469:ℚ)/2 < 0) by norm_num)]
        rfl)
    rw [format_number_some localeLookup_EU,
      if_pos (show pyLower "currency" = "currency" from rfl)]
    show format_currency _ euCfg 2 = _
    rw [format_currency, h1]
    rfl

/-- Witness for C4's sign-placement statement at `q = -1234.5`, locale
`"US"`, 2 decimals. -/
theorem C4_witness :
    ∃ mag : List Char, '-' ∉ mag ∧
      format_plain (.finite (-2469/2)) usCfg ((2:ℕ) : ℤ) true =
        .ok (String.mk ('-' :: mag)) ∧
      format_currency (.finite (-2469/2)) usCfg ((2:ℕ) : ℤ) = .ok (String.mk ('-' ::
        (if usCfg.currency_symbol_position = "before" then
          usCfg.currency_symbol.data ++
            (if usCfg.currency_symbol_space then [' '] else []) ++ mag
         else
          mag ++ (if usCfg.currency_symbol_space then [' '] else []) ++
            usCfg.currency_symbol.data))) :=
  C4_currency_sign.1 "US" usCfg localeLookup_US (-2469/2) 2 (by norm_num)

/-- C6: for every finite value, the scientific renderer substitutes the
locale's decimal separator for exactly the mantissa's decimal point —
the single `.` of the host form — leaving the `e` marker, exponent sign
and exponent digits untouched; when the locale separator is `.` the
host string is returned unchanged. -/
theorem C6_scientific (q : ℚ) (cfg : LocaleCfg) :
    (cfg.decimal_sep = "." →
      format_scientific (.finite q) cfg 3 = .ok (pySciFormat (.finite q) 3)) ∧
    (cfg.decimal_sep ≠ "." →
      ∃ m1 m2 ex : List Char,
        (pySciFormat (.finite q) 3).data = m1 ++ '.' :: (m2 ++ 'e' :: ex) ∧
        '.' ∉ m1 ∧ '.' ∉ m2 ∧ '.' ∉ ex ∧ 'e' ∉ m1 ∧ 'e' ∉ m2 ∧ 'e' ∉ ex ∧
        format_scientific (.finite q) cfg 3 =
          .ok (String.mk ((m1 ++ cfg.decimal_sep.data ++ m2) ++ 'e' :: ex))) := by
  constructor
  · exact format_scientific_dot
  · intro hsep
    obtain ⟨m1, m2, ex, hd, hdot1, he1, hm2, _, hexdot, hexe⟩ := pySciFormat_decomp q
    have hdot2 : '.' ∉ m2 := fun hmem => absurd (hm2 '.' hmem) (by decide)
    have he2 : 'e' ∉ m2 := fun hmem => absurd (hm2 'e' hmem) (by decide)
    exact ⟨m1, m2, ex, hd, hdot1, hdot2, hexdot, he1, he2, hexe,
      format_scientific_subst hsep hd hdot1 he1 hm2 hexe⟩

/-- Witness for C6 at `q = 1234.5` and the `"EU"` profile (separator
`","`). -/
theorem C6_witness :
    euCfg.decimal_sep ≠ "." ∧
    ∃ m1 m2 ex : List Char,
      (pySciFormat (.finite (2469/2)) 3).data = m1 ++ '.' :: (m2 ++ 'e' :: ex) ∧
      '.' ∉ m1 ∧ '.' ∉ m2 ∧ '.' ∉ ex ∧ 'e' ∉ m1 ∧ 'e' ∉ m2 ∧ 'e' ∉ ex ∧
      format_scientific (.finite (2469/2)) euCfg 3 =
        .ok (String.mk ((m1 ++ euCfg.decimal_sep.data ++ m2) ++ 'e' :: ex)) :=
  ⟨by decide, (C6_scientific (2469/2) euCfg).2 (by decide)⟩

/-- C7: with `decimals` absent the dispatcher defaults to 2 for
currency and 0 for grouped and rounded; a supplied `decimals` overrides
those; the scientific style always formats with 3 mantissa digits and
ignores `decimals` entirely — in particular
`format(1234.5678, "US", "scientific")` is `"1.235e+03"` for every
`decimals` argument. -/
theorem C7_defaults (v : PyFloat) (L : String) (cfg : LocaleCfg)
    (hL : localeLookup L = some cfg) :
    format_number v L "currency" none = format_currency v cfg 2 ∧
    format_number v L "grouped" none = format_plain v cfg 0 true ∧
    format_number v L "rounded" none = format_plain v cfg 0 false ∧
    (∀ d : ℤ, format_number v L "currency" (some d) = format_currency v cfg d) ∧
    (∀ d : ℤ, format_number v L "grouped" (some d) = format_plain v cfg d true) ∧
    (∀ d : ℤ, format_number v L "rounded" (some d) = format_plain v cfg d false) ∧
    (∀ dec : Option ℤ, format_number v L "scientific" dec = format_scientific v cfg 3) ∧
    (∀ dec : Option ℤ,
      format_number (.finite (12345678/10000)) "US" "scientific" dec =
        .ok "1.235e+03") := by
  have hsci : format_scientific (.finite ((12345678:ℚ)/10000)) usCfg 3 =
      .ok "1.235e+03" := by
    rw [format_scientific_dot rfl]
    have hq : (0:ℚ) < 12345678/10000 := by norm_num
    have he : pySciExp ((12345678:ℚ)/10000) = 3 := by
      rw [pySciExp, if_pos (by norm_num : (1:ℚ) ≤ 12345678/10000)]
      have hfl : ⌊(12345678:ℚ)/10000⌋₊ = 1234 := by
        rw [Nat.floor_eq_iff (by positivity)]
        constructor <;> norm_num
      rw [hfl, show natLog10 1234 1234 = 3 from by decide]
      rfl
    have hm : rhe ((12345678:ℚ)/10000 / 10 ^ (3:ℤ) * 10 ^ 3) = ((1235:ℕ) : ℤ) := by
      rw [show ((12345678:ℚ)/10000 / 10 ^ (3:ℤ) * 10 ^ 3) = 12345678/10000 by
        rw [show ((10:ℚ) ^ (3:ℤ)) = 1000 by norm_num]
        norm_num]
      exact rhe_eq_high (by norm_num) (by norm_num)
    rw [pySciFormat_eval hq he hm (by decide)]
    rfl
  refine ⟨?_, ?_, ?_, ?_, ?_, ?_, ?_, ?_⟩
  · rw [format_number_some hL, if_pos (show pyLower "currency" = "currency" from rfl)]
    rfl
  · rw [format_number_some hL, if_neg (by decide),
      if_pos (Or.inr (show pyLower "grouped" = "grouped" from rfl))]
    rfl
  · rw [format_number_some hL, if_neg (by decide), if_neg (by decide),
      if_pos (Or.inr (show pyLower "rounded" = "rounded" from rfl))]
    rfl
  · intro d
    rw [format_number_some hL, if_pos (show pyLower "currency" = "currency" from rfl)]
    rfl
  · intro d
    rw [format_number_some hL, if_neg (by decide),
      if_pos (Or.inr (show pyLower "grouped" = "grouped" from rfl))]
    rfl
  · intro d
    rw [format_number_some hL, if_neg (by decide), if_neg (by decide),
      if_pos (Or.inr (show pyLower "rounded" = "rounded" from rfl))]
    rfl
  · intro dec
    rw [format_number_some hL, if_neg (by decide), if_neg (by decide),
      if_neg (by decide),
      if_pos (Or.inr (show pyLower "scientific" = "scientific" from rfl))]
  · intro dec
    rw [format_number_some localeLookup_US, if_neg (by decide), if_neg (by decide),
      if_neg (by decide),
      if_pos (Or.inr (show pyLower "scientific" = "scientific" from rfl))]
    exact hsci

/-- Witness for C7 at value `5`, locale `"US"`. -/
theorem C7_witness :
    format_number (.finite 5) "US" "currency" none = format_currency (.finite 5) usCfg 2 ∧
    format_number (.finite 5) "US" "grouped" none = format_plain (.finite 5) usCfg 0 true ∧
    format_number (.finite 5) "US" "rounded" none = format_plain (.finite 5) usCfg 0 false ∧
    (∀ d : ℤ, format_number (.finite 5) "US" "currency" (some d) =
      format_currency (.finite 5) usCfg d) ∧
    (∀ d : ℤ, format_number (.finite 5) "US" "grouped" (some d) =
      format_plain (.finite 5) usCfg d true) ∧
    (∀ d : ℤ, format_number (.finite 5) "US" "rounded" (some d) =
      format_plain (.finite 5) usCfg d false) ∧
    (∀ dec : Option ℤ, format_number (.finite 5) "US" "scientific" dec =
      format_scientific (.finite 5) usCfg 3) ∧
    (∀ dec : Option ℤ,
      format_number (.finite (12345678/10000)) "US" "scientific" dec =
        .ok "1.235e+03") :=
  C7_defaults (.finite 5) "US" usCfg localeLookup_US

/-- C1 (amended): for a finite value and a `decimals` that is absent or
nonnegative, the dispatcher fails with `UnknownLocale` exactly when the
locale is not a registry key (case-sensitive exact lookup), fails with
`UnknownStyle` exactly when the lower-cased style is none of the seven
recognized names, and otherwise returns a formatted string.  (A supplied
negative `decimals` with a non-scientific style adds a third failure
mode, the host's format-specifier error — see the counterexample.) -/
theorem C1_failure_modes (q : ℚ) (loc style : String) (dec : Option ℤ)
    (hdec : ∀ k, dec = some k → 0 ≤ k) :
    (localeLookup loc = none →
      format_number (.finite q) loc style dec = .error ("Unknown locale: " ++ loc)) ∧
    (∀ cfg, localeLookup loc = some cfg →
      (pyLower style ∉ (["currency", "comma", "grouped", "round", "rounded",
          "sci", "scientific"] : List String) →
        format_number (.finite q) loc style dec =
          .error ("Unknown style: " ++ pyLower style)) ∧
      (pyLower style ∈ (["currency", "comma", "grouped", "round", "rounded",
          "sci", "scientific"] : List String) →
        ∃ s, format_number (.finite q) loc style dec = .ok s)) := by
  refine ⟨fun h => format_number_none h, fun cfg hL => ⟨?_, ?_⟩⟩
  · intro hnot
    simp only [List.mem_cons, List.not_mem_nil, or_false, not_or] at hnot
    obtain ⟨h1, h2, h3, h4, h5, h6, h7⟩ := hnot
    rw [format_number_some hL, if_neg h1, if_neg (by tauto), if_neg (by tauto),
      if_neg (by tauto)]
  · intro hmem
    have hd2 : (0:ℤ) ≤ dec.getD 2 := by
      cases dec with
      | none => norm_num
      | some k => simpa using hdec k rfl
    have hd0 : (0:ℤ) ≤ dec.getD 0 := by
      cases dec with
      | none => norm_num
      | some k => simpa using hdec k rfl
    rw [format_number_some hL]
    simp only [List.mem_cons, List.not_mem_nil, or_false] at hmem
    rcases hmem with h | h | h | h | h | h | h
    · rw [if_pos h]
      exact format_currency_isOk _ _ _ hd2
    · rw [if_neg (by rw [h]; decide), if_pos (Or.inl h)]
      exact format_plain_isOk _ _ _ _ hd0
    · rw [if_neg (by rw [h]; decide), if_pos (Or.inr h)]
      exact format_plain_isOk _ _ _ _ hd0
    · rw [if_neg (by rw [h]; decide), if_neg (by rw [h]; decide),
        if_pos (Or.inl h)]
      exact format_plain_isOk _ _ _ _ hd0
    · rw [if_neg (by rw [h]; decide), if_neg (by rw [h]; decide),
        if_pos (Or.inr h)]
      exact format_plain_isOk _ _ _ _ hd0
    · rw [if_neg (by rw [h]; decide), if_neg (by rw [h]; decide),
        if_neg (by rw [h]; decide), if_pos (Or.inl h)]
      exact format_scientific_finite_isOk q cfg
    · rw [if_neg (by rw [h]; decide), if_neg (by rw [h]; decide),
        if_neg (by rw [h]; decide), if_pos (Or.inr h)]
      exact format_scientific_finite_isOk q cfg

/-- Witness for C1's amended statement: an unregistered locale `"XX"`
fails with the unknown-locale error. -/
theorem C1_witness :
    format_number (.finite 5) "XX" "currency" none =
      .error ("Unknown locale: " ++ "XX") :=
  (C1_failure_modes 5 "XX" "currency" none
    (fun _ h => Option.noConfusion h)).1 rfl

/-- C1 counterexample: with the registered locale `"US"` and the
recognized style `"currency"`, a negative `decimals` still fails — with
the format-specifier error, a failure mode beyond `UnknownLocale` and
`UnknownStyle`, so those are not the only failure modes of the
dispatcher. -/
theorem C1_counterexample :
    localeLookup "US" = some usCfg ∧ pyLower "currency" = "currency" ∧
    format_number (.finite 5) "US" "currency" (some (-1)) =
      .error "Format specifier missing precision" := by
  refine ⟨rfl, rfl, ?_⟩
  rw [format_number_some localeLookup_US,
    if_pos (show pyLower "currency" = "currency" from rfl)]
  exact format_currency_neg _ _ _ (by decide)

/-- C8 (amended): a negative `decimals` with a valid locale and a
non-scientific style makes formatting fail, but with the host's
format-specifier `ValueError` (message `"Format specifier missing
precision"`), not a dedicated `InvalidDecimals` error; the
`InvalidDecimals` message (`"decimals must be an integer"`) is produced
only for non-integer `decimals` text in the POST path. -/
theorem C8_negative_decimals (v : PyFloat) (L style : String) (cfg : LocaleCfg)
    (hL : localeLookup L = some cfg) (d : ℤ) (hd : d < 0)
    (hs : pyLower style ∈ (["currency", "comma", "grouped", "round",
      "rounded"] : List String)) :
    format_number v L style (some d) =
      .error "Format specifier missing precision" := by
  rw [format_number_some hL]
  simp only [List.mem_cons, List.not_mem_nil, or_false] at hs
  rcases hs with h | h | h | h | h
  · rw [if_pos h, Option.getD_some]
    exact format_currency_neg _ _ _ hd
  · rw [if_neg (by rw [h]; decide), if_pos (Or.inl h), Option.getD_some]
    exact format_plain_neg _ _ _ _ hd
  · rw [if_neg (by rw [h]; decide), if_pos (Or.inr h), Option.getD_some]
    exact format_plain_neg _ _ _ _ hd
  · rw [if_neg (by rw [h]; decide), if_neg (by rw [h]; decide),
      if_pos (Or.inl h), Option.getD_some]
    exact format_plain_neg _ _ _ _ hd
  · rw [if_neg (by rw [h]; decide), if_neg (by rw [h]; decide),
      if_pos (Or.inr h), Option.getD_some]
    exact format_plain_neg _ _ _ _ hd

/-- Witness for C8's amended statement at `decimals = -1`, locale
`"EU"`, style `"currency"`. -/
theorem C8_witness :
    format_number (.finite 5) "EU" "currency" (some (-1)) =
      .error "Format specifier missing precision" :=
  C8_negative_decimals (.finite 5) "EU" "currency" euCfg localeLookup_EU (-1)
    (by decide) (by decide)

/-- C8 counterexample: the failure a negative `decimals` produces is the
format-specifier message, not the `InvalidDecimals` message `"decimals
must be an integer"`, so the claim's required error kind is wrong. -/
theorem C8_counterexample :
    format_number (.finite 7) "US" "rounded" (some (-2)) =
      .error "Format specifier missing precision" ∧
    "Format specifier missing precision" ≠ "decimals must be an integer" := by
  constructor
  · rw [format_number_some localeLookup_US, if_neg (by decide), if_neg (by decide),
      if_pos (Or.inr (show pyLower "rounded" = "rounded" from rfl)),
      Option.getD_some]
    exact format_plain_neg _ _ _ _ (by decide)
  · decide

/-- C9 (amended): the endpoint rejects an absent value with the
`MissingValue` message, and an ASCII value text that Python `float`
cannot parse — PEP 515 underscore separators being accepted — with the
`InvalidValue` message (CPython first maps Unicode digits and
whitespace to ASCII, a transform outside this model, so the statement
is scoped to ASCII texts); but text parsing to infinity or NaN is
accepted by `float` and formatted (see the counterexample), so those
are not rejected. -/
theorem C9_value_errors :
    (∀ (loc style : String) (dec : Option ℤ),
      format_endpoint none loc style dec = .err "value is required") ∧
    (∀ (vtext loc style : String) (dec : Option ℤ),
      (∀ c ∈ vtext.data, c.toNat < 128) → pyParseFloat vtext = none →
      format_endpoint (some vtext) loc style dec = .err "value must be numeric") := by
  constructor
  · intro loc style dec
    rfl
  · intro vtext loc style dec hascii h
    simp only [format_endpoint, h]

/-- Witness for C9's amended statement: the ASCII text `"abc"` does not
parse and is rejected with the `InvalidValue` message. -/
theorem C9_witness :
    format_endpoint (some "abc") "US" "currency" none =
      .err "value must be numeric" :=
  C9_value_errors.2 "abc" "US" "currency" none (by decide) (by decide)

/-- C9 counterexample: the text `"inf"` parses to infinity under Python
`float`, is not rejected, and the endpoint returns the formatted string
`"$inf."` — refuting the claim that non-finite values are rejected with
`InvalidValue`. -/
theorem C9_counterexample :
    pyParseFloat "inf" = some PyFloat.inf ∧
    format_endpoint (some "inf") "US" "currency" none = .ok "$inf." := by
  constructor
  · rfl
  · have hp : format_plain .inf usCfg ((none : Option ℤ).getD 2) true =
        .ok "inf." := by
      rw [format_plain, if_neg (by decide)]
      rfl
    have hc : format_currency .inf usCfg ((none : Option ℤ).getD 2) =
        .ok "$inf." := by
      rw [format_currency, hp]
      rfl
    have hfmt : format_number .inf "US" "currency" none = .ok "$inf." := by
      rw [format_number_some localeLookup_US,
        if_pos (show pyLower "currency" = "currency" from rfl)]
      exact hc
    simp only [format_endpoint, show pyParseFloat "inf" = some PyFloat.inf from rfl,
      hfmt]

end NumberFormatter
